import Mathlib

/-!
Shallow embedding of the VaR application's data pipeline:

* `src/unnamed/part_000` (the financial-data server module):
  `parseCsvData`, `calculateDailyReturns`, `getHistoricalData`;
* `src/VibeCodeFrontEnd/var_model_page.tsx` (the page component):
  `addInstrument`, `removeInstrument`, `toggleInstrument`, `runCalculation`.

JavaScript numbers are modelled by `JsNum`: a rational value or the `NaN`
sentinel (the only non-finite value the guarded code paths can produce; the
division in `calculateDailyReturns` is guarded by a `=== 0` test on the
denominator, so `Infinity` never arises there, while `parseFloat` of a
non-numeric string yields `NaN`).  The JavaScript built-ins `parseFloat` and
`new Date(s).getTime()` are external to the repository, so the definitions
are parameterised by oracles `pf : String → JsNum` and `pd : String → Int`.
A JavaScript `Map` is modelled by an association list with JavaScript's
insertion-order semantics: `set` on a present key updates in place, `set`
on an absent key appends.  File I/O is modelled by an `Option String`
(`none` = the read threw, caught by the `try`/`catch` in `parseCsvData`).
-/

/-- JavaScript `String.prototype.split` with a single-character separator
(the code only splits on `'\n'` and `','`): split the character list on the
separator; the empty string yields `[""]`, a trailing separator yields a
trailing empty chunk, exactly as in JavaScript. -/
def splitChunks (sep : Char) : List Char → List (List Char)
  | [] => [[]]
  | c :: cs =>
      if c = sep then [] :: splitChunks sep cs
      else
        match splitChunks sep cs with
        | chunk :: rest => (c :: chunk) :: rest
        | [] => [[c]]

/-- `s.split(sep)` for a one-character separator `sep`. -/
def jsSplit (sep : Char) (s : String) : List String :=
  (splitChunks sep s.toList).map (fun cs => String.mk cs)

/-- A JavaScript number: a finite value (as a rational) or the NaN sentinel. -/
inductive JsNum : Type where
  | num (q : ℚ)
  | nan
  deriving DecidableEq, Repr

/-- JavaScript subtraction on `JsNum`: NaN propagates. -/
def JsNum.sub : JsNum → JsNum → JsNum
  | JsNum.num a, JsNum.num b => JsNum.num (a - b)
  | _, _ => JsNum.nan

/-- JavaScript division on `JsNum` as used by the code: NaN propagates.  The
zero-denominator branch is unreachable in the source (guarded by `=== 0`),
so mapping it to `nan` is never exercised. -/
def JsNum.div : JsNum → JsNum → JsNum
  | JsNum.num a, JsNum.num b => if b = 0 then JsNum.nan else JsNum.num (a / b)
  | _, _ => JsNum.nan

/-- `PriceRecord` from `part_000`: the parsed date (as its `getTime`
millisecond value) and the parsed price. -/
structure PriceRecord : Type where
  date : Int
  price : JsNum
  deriving DecidableEq, Repr

/-- `Instrument` from `@/lib/types` as described by the spec's data model:
id, symbol (business key), a quantity field, and the `included` flag. -/
structure Instrument : Type where
  id : String
  symbol : String
  quantity : ℚ
  included : Bool
  deriving DecidableEq, Repr

/-- JavaScript `Map.get`: the value stored at the first (unique) matching key. -/
def mapGet {α : Type} : List (String × α) → String → Option α
  | [], _ => none
  | (k', v) :: rest, k => if k' = k then some v else mapGet rest k

/-- JavaScript `Map.set`: update in place when the key is present, append
a fresh entry otherwise. -/
def mapSet {α : Type} : List (String × α) → String → α → List (String × α)
  | [], k, v => [(k, v)]
  | (k', v') :: rest, k, v =>
      if k' = k then (k, v) :: rest else (k', v') :: mapSet rest k v

/-- The `has`/`set`-empty/`get`/`push` sequence of `parseCsvData` lines 36-39:
append one record to the list stored under `symbol`, creating the entry if
absent. -/
def mapPush : List (String × List PriceRecord) → String → PriceRecord →
    List (String × List PriceRecord)
  | [], k, r => [(k, [r])]
  | (k', v) :: rest, k, r =>
      if k' = k then (k, v ++ [r]) :: rest else (k', v) :: mapPush rest k r

/-- The sort relation of `parseCsvData` line 44: the comparator
`(a, b) => a.date.getTime() - b.date.getTime()` orders records by date;
the engine's sort is stable, which a `≤`-insertion sort reproduces. -/
def byDateLe (a b : PriceRecord) : Prop := a.date ≤ b.date

instance : DecidableRel byDateLe := fun a b => inferInstanceAs (Decidable (a.date ≤ b.date))

instance : IsTotal PriceRecord byDateLe := ⟨fun a b => Int.le_total a.date b.date⟩

instance : IsTrans PriceRecord byDateLe := ⟨fun _ _ _ h h' => le_trans h h'⟩

/-- Parse a single data row (`parseCsvData` lines 29-34): skip empty rows,
split on commas, skip when the date, symbol or price field is missing
(JavaScript destructuring yields `undefined`, which is falsy exactly like
the empty string), otherwise produce the symbol with its price record. -/
def rowRec (pf : String → JsNum) (pd : String → Int) (row : String) :
    Option (String × PriceRecord) :=
  if row = "" then none
  else
    let fields := jsSplit ',' row
    let dateStr := fields.getD 0 ""
    let symbol := fields.getD 1 ""
    let priceStr := fields.getD 2 ""
    if dateStr = "" ∨ symbol = "" ∨ priceStr = "" then none
    else some (symbol, { date := pd dateStr, price := pf priceStr })

/-- One iteration of the row loop of `parseCsvData` (lines 28-40): a skipped
row leaves the map unchanged, a parsed row is pushed onto its symbol's list. -/
def groupRow (pf : String → JsNum) (pd : String → Int)
    (data : List (String × List PriceRecord)) (row : String) :
    List (String × List PriceRecord) :=
  match rowRec pf pd row with
  | none => data
  | some (symbol, record) => mapPush data symbol record

/-- The body of `parseCsvData` after the file read: loop over the data rows
grouping records by symbol, then sort each symbol's records by date
(lines 28-45). -/
def parseCsvRows (pf : String → JsNum) (pd : String → Int) (rows : List String) :
    List (String × List PriceRecord) :=
  (rows.foldl (groupRow pf pd) []).map
    (fun p => (p.1, List.insertionSort byDateLe p.2))

/-- `parseCsvData` (lines 19-54): when the file read throws the `catch`
returns the empty map; otherwise split the content on newlines, drop the
header row, and run the grouping/sorting body. -/
def parseCsvData (pf : String → JsNum) (pd : String → Int) :
    Option String → List (String × List PriceRecord)
  | none => []
  | some fileContent => parseCsvRows pf pd ((jsSplit '\n' fileContent).drop 1)

/-- The loop body of `calculateDailyReturns` (lines 64-72) for one adjacent
pair of prices: a zero yesterday price is a flat day (return 0), otherwise
the relative change. -/
def dailyReturn (yesterdayPrice todayPrice : JsNum) : JsNum :=
  if yesterdayPrice = JsNum.num 0 then JsNum.num 0
  else (todayPrice.sub yesterdayPrice).div yesterdayPrice

/-- `calculateDailyReturns` (lines 61-75): the loop from `i = 1` producing
one return per adjacent pair of price records. -/
def calculateDailyReturns : List PriceRecord → List JsNum
  | a :: b :: rest => dailyReturn a.price b.price :: calculateDailyReturns (b :: rest)
  | _ => []

/-- One iteration of the instrument loop of `getHistoricalData`
(lines 88-97): a symbol with more than one price record gets its daily
returns, any other symbol gets the empty array (the JavaScript guard is
`instrumentPrices && instrumentPrices.length > 1`). -/
def histStep (allPriceData : List (String × List PriceRecord))
    (returnsData : List (String × List JsNum)) (instrument : Instrument) :
    List (String × List JsNum) :=
  match mapGet allPriceData instrument.symbol with
  | some instrumentPrices =>
      if instrumentPrices.length > 1 then
        mapSet returnsData instrument.symbol (calculateDailyReturns instrumentPrices)
      else
        mapSet returnsData instrument.symbol []
  | none => mapSet returnsData instrument.symbol []

/-- `getHistoricalData` (lines 82-100): parse the CSV, then fill a fresh map
with one return series per requested instrument symbol. -/
def getHistoricalData (pf : String → JsNum) (pd : String → Int)
    (fileContent : Option String) (instruments : List Instrument) :
    List (String × List JsNum) :=
  instruments.foldl (histStep (parseCsvData pf pd fileContent)) []

/-- The argument of `addInstrument` in `var_model_page.tsx`:
`Omit<Instrument, 'id' | 'included'>`. -/
structure NewInstrument : Type where
  symbol : String
  quantity : ℚ
  deriving DecidableEq, Repr

/-- `addInstrument` (`var_model_page.tsx` lines 30-45): reject (toast and
return, list unchanged) when an instrument with the same symbol exists,
otherwise append with a fresh id and `included := true`.  The id produced
by `crypto.randomUUID()` is passed as a parameter. -/
def addInstrument (instruments : List Instrument) (instrument : NewInstrument)
    (id : String) : List Instrument :=
  match instruments.find? (fun inst => inst.symbol == instrument.symbol) with
  | some _ => instruments
  | none => instruments ++
      [{ id := id, symbol := instrument.symbol, quantity := instrument.quantity,
         included := true }]

/-- `removeInstrument` (lines 47-49): keep the instruments whose id differs. -/
def removeInstrument (instruments : List Instrument) (id : String) : List Instrument :=
  instruments.filter (fun inst => inst.id != id)

/-- `toggleInstrument` (lines 51-57): flip `included` on the matching id. -/
def toggleInstrument (instruments : List Instrument) (id : String) : List Instrument :=
  instruments.map (fun inst =>
    if inst.id = id then { inst with included := !inst.included } else inst)

/-- One step of the instrument-list state machine made of the three
mutation handlers of `var_model_page.tsx`. -/
inductive PortfolioOp : Type where
  | add (instrument : NewInstrument) (id : String)
  | remove (id : String)
  | toggle (id : String)

/-- Apply one mutation handler to the instrument-list state. -/
def applyPortfolioOp (instruments : List Instrument) : PortfolioOp → List Instrument
  | PortfolioOp.add instrument id => addInstrument instruments instrument id
  | PortfolioOp.remove id => removeInstrument instruments id
  | PortfolioOp.toggle id => toggleInstrument instruments id

/-- The instrument lists reachable from the initial state `[]` of
`useState<Instrument[]>([])` by a sequence of handler calls. -/
def applyPortfolioOps (instruments : List Instrument) (ops : List PortfolioOp) :
    List Instrument :=
  ops.foldl applyPortfolioOp instruments

/-- `getHistoricalDataOnClient` (lines 14-18): the map is serialised as its
entry array; on the association-list model this is the identity. -/
def getHistoricalDataOnClient (pf : String → JsNum) (pd : String → Int)
    (fileContent : Option String) (instruments : List Instrument) :
    List (String × List JsNum) :=
  getHistoricalData pf pd fileContent instruments

/-- `new Map(entries)` (line 72): rebuild a map from an entry array. -/
def mapFromEntries (entries : List (String × List JsNum)) :
    List (String × List JsNum) :=
  entries.foldl (fun m p => mapSet m p.1 p.2) []

/-- `runCalculation` (lines 60-86), as the value assigned to `varResults`
paired with whether `calculateVaR` was invoked.  The VaR engine
(`@/lib/var-calculator`, not in the repository) is a parameter of result
type `α`; the empty-active-set branch sets the result to `null` and
returns before the engine is called. -/
def runCalculation {α : Type} (calculateVaR : List Instrument →
      List (String × List JsNum) → String → α)
    (pf : String → JsNum) (pd : String → Int) (fileContent : Option String)
    (instruments : List Instrument) (simulationMethod : String) :
    Option α × Bool :=
  let activeInstruments := instruments.filter (fun inst => inst.included)
  if activeInstruments.length = 0 then (none, false)
  else
    let historicalDataArray := getHistoricalDataOnClient pf pd fileContent activeInstruments
    let historicalData := mapFromEntries historicalDataArray
    (some (calculateVaR activeInstruments historicalData simulationMethod), true)

/-! ### Helper characterizations of the map operations -/

/-- The per-symbol value that one iteration of `getHistoricalData`'s loop
stores: returns when more than one record exists, `[]` otherwise. -/
def returnsFor (allPriceData : List (String × List PriceRecord)) (sym : String) :
    List JsNum :=
  match mapGet allPriceData sym with
  | some instrumentPrices =>
      if instrumentPrices.length > 1 then calculateDailyReturns instrumentPrices
      else []
  | none => []

/-- The records a list of rows contributes to symbol `sym`, in row order. -/
def recsFor (pf : String → JsNum) (pd : String → Int) (sym : String)
    (rows : List String) : List PriceRecord :=
  rows.filterMap (fun row =>
    match rowRec pf pd row with
    | some (s, r) => if s = sym then some r else none
    | none => none)

theorem mapGet_mapSet {α : Type} (m : List (String × α)) (k : String) (v : α)
    (k' : String) :
    mapGet (mapSet m k v) k' = if k = k' then some v else mapGet m k' := by
  induction m with
  | nil => simp [mapGet, mapSet]
  | cons p rest ih =>
      obtain ⟨k'', v''⟩ := p
      by_cases h1 : k'' = k
      · subst h1
        by_cases h2 : k'' = k' <;> simp [mapGet, mapSet, h2]
      · by_cases h2 : k'' = k'
        · subst h2
          rw [if_neg (fun h => h1 h.symm)]
          simp [mapGet, mapSet, h1]
        · simp [mapGet, mapSet, h1, h2, ih]

theorem keys_mapSet {α : Type} (m : List (String × α)) (k : String) (v : α) :
    (mapSet m k v).map Prod.fst =
      if k ∈ m.map Prod.fst then m.map Prod.fst else m.map Prod.fst ++ [k] := by
  induction m with
  | nil => simp [mapSet]
  | cons p rest ih =>
      obtain ⟨k'', v''⟩ := p
      by_cases h1 : k'' = k
      · subst h1
        simp [mapSet]
      · simp only [mapSet, if_neg h1, List.map_cons]
        by_cases h2 : k ∈ rest.map Prod.fst
        · simp [ih, h2, Ne.symm h1]
        · simp [ih, h2, Ne.symm h1]

theorem nodup_keys_mapSet {α : Type} (m : List (String × α)) (k : String) (v : α)
    (h : (m.map Prod.fst).Nodup) : ((mapSet m k v).map Prod.fst).Nodup := by
  rw [keys_mapSet]
  by_cases hk : k ∈ m.map Prod.fst
  · simpa [hk]
  · simp [hk, List.nodup_append, h]

theorem mapGet_mapPush (m : List (String × List PriceRecord)) (k : String)
    (r : PriceRecord) (k' : String) :
    mapGet (mapPush m k r) k' =
      if k = k' then some ((mapGet m k).getD [] ++ [r]) else mapGet m k' := by
  induction m with
  | nil => simp [mapGet, mapPush]
  | cons p rest ih =>
      obtain ⟨k'', v''⟩ := p
      by_cases h1 : k'' = k
      · subst h1
        by_cases h2 : k'' = k' <;> simp [mapGet, mapPush, h2]
      · by_cases h2 : k'' = k'
        · subst h2
          rw [if_neg (fun h => h1 h.symm)]
          simp [mapGet, mapPush, h1]
        · simp [mapGet, mapPush, h1, h2, ih]

theorem mapGet_mem {α : Type} (m : List (String × α)) (k : String) (v : α)
    (h : mapGet m k = some v) : (k, v) ∈ m := by
  induction m with
  | nil => simp [mapGet] at h
  | cons p rest ih =>
      obtain ⟨k'', v''⟩ := p
      by_cases h1 : k'' = k
      · subst h1
        simp [mapGet] at h
        simp [h]
      · simp [mapGet, h1] at h
        exact List.mem_cons_of_mem _ (ih h)

theorem mapGet_map_snd {α β : Type} (m : List (String × α)) (f : α → β)
    (k : String) :
    mapGet (m.map (fun p => (p.1, f p.2))) k = (mapGet m k).map f := by
  induction m with
  | nil => simp [mapGet]
  | cons p rest ih =>
      obtain ⟨k'', v''⟩ := p
      by_cases h1 : k'' = k <;> simp [mapGet, h1, ih]

/-! ### Characterization of the row-grouping loop of `parseCsvData` -/

theorem getD_mapGet_foldl_groupRow (pf : String → JsNum) (pd : String → Int) :
    ∀ (rows : List String) (acc : List (String × List PriceRecord)) (sym : String),
    (mapGet (rows.foldl (groupRow pf pd) acc) sym).getD [] =
      (mapGet acc sym).getD [] ++ recsFor pf pd sym rows := by
  intro rows
  induction rows with
  | nil => simp [recsFor]
  | cons row rest ih =>
      intro acc sym
      simp only [List.foldl_cons]
      rw [ih]
      cases hrow : rowRec pf pd row with
      | none => simp [groupRow, hrow, recsFor]
      | some p =>
          obtain ⟨s, r⟩ := p
          by_cases hs : s = sym
          · subst hs
            simp [groupRow, hrow, recsFor, mapGet_mapPush]
          · simp [groupRow, hrow, recsFor, mapGet_mapPush, hs]

theorem mapGet_foldl_groupRow_eq_none (pf : String → JsNum) (pd : String → Int) :
    ∀ (rows : List String) (acc : List (String × List PriceRecord)) (sym : String),
    mapGet (rows.foldl (groupRow pf pd) acc) sym = none ↔
      mapGet acc sym = none ∧ recsFor pf pd sym rows = [] := by
  intro rows
  induction rows with
  | nil => simp [recsFor]
  | cons row rest ih =>
      intro acc sym
      simp only [List.foldl_cons]
      rw [ih]
      cases hrow : rowRec pf pd row with
      | none => simp [groupRow, hrow, recsFor]
      | some p =>
          obtain ⟨s, r⟩ := p
          by_cases hs : s = sym
          · subst hs
            simp [groupRow, hrow, recsFor, mapGet_mapPush]
          · simp [groupRow, hrow, recsFor, mapGet_mapPush, hs]

theorem mapGet_foldl_groupRow (pf : String → JsNum) (pd : String → Int)
    (rows : List String) (sym : String) :
    mapGet (rows.foldl (groupRow pf pd) []) sym =
      if recsFor pf pd sym rows = [] then none else some (recsFor pf pd sym rows) := by
  by_cases h : recsFor pf pd sym rows = []
  · simp [h, (mapGet_foldl_groupRow_eq_none pf pd rows [] sym).2 ⟨rfl, h⟩]
  · have hne : ¬ mapGet (rows.foldl (groupRow pf pd) []) sym = none := by
      rw [mapGet_foldl_groupRow_eq_none]
      simp [h]
    cases hm : mapGet (rows.foldl (groupRow pf pd) []) sym with
    | none => exact absurd hm hne
    | some v =>
        have := getD_mapGet_foldl_groupRow pf pd rows [] sym
        rw [hm] at this
        simp [mapGet] at this
        simp [h, this]

/-! ### Characterization of the instrument loop of `getHistoricalData` -/

theorem histStep_eq_mapSet (allPriceData : List (String × List PriceRecord))
    (returnsData : List (String × List JsNum)) (instrument : Instrument) :
    histStep allPriceData returnsData instrument =
      mapSet returnsData instrument.symbol
        (returnsFor allPriceData instrument.symbol) := by
  unfold histStep returnsFor
  cases mapGet allPriceData instrument.symbol with
  | none => rfl
  | some ps => by_cases h : ps.length > 1 <;> simp [h]

theorem mapGet_foldl_histStep (allPriceData : List (String × List PriceRecord)) :
    ∀ (instruments : List Instrument) (acc : List (String × List JsNum))
      (sym : String),
    mapGet (instruments.foldl (histStep allPriceData) acc) sym =
      if sym ∈ instruments.map Instrument.symbol
      then some (returnsFor allPriceData sym)
      else mapGet acc sym := by
  intro instruments
  induction instruments with
  | nil => simp
  | cons inst rest ih =>
      intro acc sym
      simp only [List.foldl_cons, List.map_cons]
      rw [ih, histStep_eq_mapSet, mapGet_mapSet]
      by_cases h1 : sym ∈ rest.map Instrument.symbol
      · simp [h1]
      · by_cases h2 : inst.symbol = sym
        · subst h2
          simp [h1]
        · have h2' : ¬ sym = inst.symbol := fun h => h2 h.symm
          simp [h1, h2, h2']

theorem mapGet_getHistoricalData (pf : String → JsNum) (pd : String → Int)
    (fileContent : Option String) (instruments : List Instrument) (sym : String) :
    mapGet (getHistoricalData pf pd fileContent instruments) sym =
      if sym ∈ instruments.map Instrument.symbol
      then some (returnsFor (parseCsvData pf pd fileContent) sym)
      else none := by
  unfold getHistoricalData
  rw [mapGet_foldl_histStep]
  rfl

theorem nodup_keys_foldl_histStep (allPriceData : List (String × List PriceRecord)) :
    ∀ (instruments : List Instrument) (acc : List (String × List JsNum)),
    (acc.map Prod.fst).Nodup →
    ((instruments.foldl (histStep allPriceData) acc).map Prod.fst).Nodup := by
  intro instruments
  induction instruments with
  | nil => intro acc h; simpa using h
  | cons inst rest ih =>
      intro acc h
      simp only [List.foldl_cons]
      exact ih _ (by rw [histStep_eq_mapSet]; exact nodup_keys_mapSet _ _ _ h)

/-! ### Lemmas about `calculateDailyReturns` -/

theorem length_calculateDailyReturns :
    ∀ prices : List PriceRecord,
    (calculateDailyReturns prices).length = prices.length - 1
  | [] => rfl
  | [_] => rfl
  | a :: b :: rest => by
      have ih := length_calculateDailyReturns (b :: rest)
      simp only [calculateDailyReturns, List.length_cons] at ih ⊢
      omega

theorem getElem_calculateDailyReturns :
    ∀ (prices : List PriceRecord) (i : ℕ) (a b : PriceRecord),
    prices[i]? = some a → prices[i + 1]? = some b →
    (calculateDailyReturns prices)[i]? = some (dailyReturn a.price b.price) := by
  intro prices
  induction prices with
  | nil => intro i a b ha; simp at ha
  | cons x rest ih =>
      intro i a b ha hb
      cases rest with
      | nil =>
          cases i with
          | zero => simp at hb
          | succ j => simp at hb
      | cons y rest2 =>
          cases i with
          | zero =>
              simp at ha hb
              simp [calculateDailyReturns, ha, hb]
          | succ j =>
              rw [List.getElem?_cons_succ] at ha hb
              simpa [calculateDailyReturns] using ih j a b ha hb

/-! ### Order-independence machinery for the date sort -/

/-- Strict-or-equal date order, antisymmetric on records, used to show that
two sorted permutations with pairwise-distinct dates coincide. -/
def byDateLtEq (a b : PriceRecord) : Prop := a.date < b.date ∨ a = b

instance : IsAntisymm PriceRecord byDateLtEq := by
  constructor
  intro a b hab hba
  rcases hab with h1 | h1
  · rcases hba with h2 | h2
    · exact absurd h2 (not_lt_of_lt h1)
    · exact h2.symm
  · exact h1

theorem sorted_byDateLtEq_of_nodup (l : List PriceRecord)
    (hs : List.Sorted byDateLe l) (hnd : (l.map PriceRecord.date).Nodup) :
    List.Sorted byDateLtEq l := by
  have hne : List.Pairwise (fun a b : PriceRecord => a.date ≠ b.date) l := by
    have := hnd
    rw [List.Nodup, List.pairwise_map] at this
    exact this
  exact (hs.and hne).imp (fun hab => Or.inl (lt_of_le_of_ne hab.1 hab.2))

theorem insertionSort_eq_of_perm (l₁ l₂ : List PriceRecord)
    (hp : l₁.Perm l₂) (hnd : (l₁.map PriceRecord.date).Nodup) :
    List.insertionSort byDateLe l₁ = List.insertionSort byDateLe l₂ := by
  have p₁ : (List.insertionSort byDateLe l₁).Perm l₁ := List.perm_insertionSort _ _
  have p₂ : (List.insertionSort byDateLe l₂).Perm l₂ := List.perm_insertionSort _ _
  have hperm : (List.insertionSort byDateLe l₁).Perm (List.insertionSort byDateLe l₂) :=
    (p₁.trans hp).trans p₂.symm
  have hnd₁ : ((List.insertionSort byDateLe l₁).map PriceRecord.date).Nodup :=
    ((p₁.map PriceRecord.date).nodup_iff).2 hnd
  have hnd₂ : ((List.insertionSort byDateLe l₂).map PriceRecord.date).Nodup :=
    ((hperm.map PriceRecord.date).nodup_iff).1 hnd₁
  exact List.eq_of_perm_of_sorted hperm
    (sorted_byDateLtEq_of_nodup _ (List.sorted_insertionSort _ _) hnd₁)
    (sorted_byDateLtEq_of_nodup _ (List.sorted_insertionSort _ _) hnd₂)

theorem mapGet_parseCsvRows (pf : String → JsNum) (pd : String → Int)
    (rows : List String) (sym : String) :
    mapGet (parseCsvRows pf pd rows) sym =
      (mapGet (rows.foldl (groupRow pf pd) []) sym).map
        (List.insertionSort byDateLe) := by
  unfold parseCsvRows
  exact mapGet_map_snd _ _ _

theorem recsFor_reverse (pf : String → JsNum) (pd : String → Int) (sym : String)
    (rows : List String) :
    recsFor pf pd sym rows.reverse = (recsFor pf pd sym rows).reverse := by
  unfold recsFor
  exact List.filterMap_reverse _ _

theorem foldl_histStep_congr (apd₁ apd₂ : List (String × List PriceRecord))
    (h : ∀ sym, mapGet apd₁ sym = mapGet apd₂ sym) :
    ∀ (instruments : List Instrument) (acc : List (String × List JsNum)),
    instruments.foldl (histStep apd₁) acc = instruments.foldl (histStep apd₂) acc := by
  intro instruments
  induction instruments with
  | nil => intro acc; rfl
  | cons inst rest ih =>
      intro acc
      simp only [List.foldl_cons]
      rw [ih]
      have hstep : histStep apd₁ acc inst = histStep apd₂ acc inst := by
        unfold histStep
        rw [h inst.symbol]
      rw [hstep]

/-- Per-symbol date distinctness of the grouped (pre-sort) records: under
this hypothesis the date sort has a unique result. -/
def DatesDistinct (pf : String → JsNum) (pd : String → Int)
    (rows : List String) : Prop :=
  ∀ p ∈ rows.foldl (groupRow pf pd) [], (p.2.map PriceRecord.date).Nodup

theorem mapGet_parseCsvRows_reverse (pf : String → JsNum) (pd : String → Int)
    (rows : List String) (hnd : DatesDistinct pf pd rows) (sym : String) :
    mapGet (parseCsvRows pf pd rows.reverse) sym =
      mapGet (parseCsvRows pf pd rows) sym := by
  rw [mapGet_parseCsvRows, mapGet_parseCsvRows, mapGet_foldl_groupRow,
    mapGet_foldl_groupRow, recsFor_reverse]
  by_cases h : recsFor pf pd sym rows = []
  · simp [h]
  · have hrev : ¬ (recsFor pf pd sym rows).reverse = [] := by simpa using h
    simp only [h, hrev, if_false, Option.map_some]
    have hmem : (sym, recsFor pf pd sym rows) ∈ rows.foldl (groupRow pf pd) [] := by
      apply mapGet_mem
      rw [mapGet_foldl_groupRow]
      simp [h]
    have hnodup : ((recsFor pf pd sym rows).map PriceRecord.date).Nodup :=
      hnd _ hmem
    have hsort : List.insertionSort byDateLe (recsFor pf pd sym rows).reverse =
        List.insertionSort byDateLe (recsFor pf pd sym rows) := by
      apply insertionSort_eq_of_perm _ _ (List.reverse_perm _)
      rw [List.map_reverse]
      exact List.nodup_reverse.2 hnodup
    simp [hsort]

/-! ### Concrete oracles and fixtures used by witnesses and counterexamples -/

/-- A concrete model of `parseFloat` on the price strings the fixtures use;
any other string is non-numeric and yields NaN. -/
def pf0 : String → JsNum := fun s =>
  if s = "100" then JsNum.num 100
  else if s = "105" then JsNum.num 105
  else if s = "50" then JsNum.num 50
  else JsNum.nan

/-- A concrete model of `new Date(s).getTime()` on the date strings the
fixtures use. -/
def pd0 : String → Int := fun s =>
  if s = "d1" then 1 else if s = "d2" then 2 else if s = "d3" then 3 else 0

/-- Fixture instrument for symbol `A`, included. -/
def iA0 : Instrument := { id := "id1", symbol := "A", quantity := 1, included := true }

/-- Fixture instrument for symbol `B`, included. -/
def iB0 : Instrument := { id := "id2", symbol := "B", quantity := 1, included := true }

/-- Fixture instrument for symbol `C`, not included. -/
def iC0 : Instrument := { id := "id3", symbol := "C", quantity := 1, included := false }

/-- Fixture CSV content: two observations for symbol `A`. -/
def cAB : String := "date,symbol,price\nd1,A,100\nd2,A,105"

/-- Fixture CSV content with a duplicate date for symbol `A`, rows in
(weakly) chronological order. -/
def cDupFwd : String := "date,symbol,price\nd1,A,100\nd1,A,50\nd2,A,100"

/-- `cDupFwd` with its data rows in reverse chronological order. -/
def cDupRev : String := "date,symbol,price\nd2,A,100\nd1,A,50\nd1,A,100"

/-- Fixture CSV content with distinct dates, rows in chronological order. -/
def cDistFwd : String := "date,symbol,price\nd1,A,100\nd2,A,50"

/-- `cDistFwd` with its data rows in reverse chronological order. -/
def cDistRev : String := "date,symbol,price\nd2,A,50\nd1,A,100"

/-! ### Claims -/

/-- Claim C1: for every date-sorted price list and every index `i ≥ 1`, the
daily return at position `i - 1` equals `(price[i] - price[i-1]) / price[i-1]`
when `price[i-1]` is not `0`, and equals exactly `0` when `price[i-1] == 0`;
in particular a zero previous price never produces a NaN return there. -/
theorem C1_daily_return_formula (prices : List PriceRecord) (i : ℕ)
    (hi : 1 ≤ i) (a b : PriceRecord)
    (ha : prices[i - 1]? = some a) (hb : prices[i]? = some b) :
    (a.price = JsNum.num 0 →
      (calculateDailyReturns prices)[i - 1]? = some (JsNum.num 0)) ∧
    (a.price ≠ JsNum.num 0 →
      (calculateDailyReturns prices)[i - 1]? =
        some ((b.price.sub a.price).div a.price)) ∧
    (a.price = JsNum.num 0 →
      (calculateDailyReturns prices)[i - 1]? ≠ some JsNum.nan) := by
  have hb' : prices[(i - 1) + 1]? = some b := by
    have heq : i - 1 + 1 = i := Nat.succ_pred_eq_of_pos hi
    rw [heq]
    exact hb
  have hget := getElem_calculateDailyReturns prices (i - 1) a b ha hb'
  refine ⟨?_, ?_, ?_⟩
  · intro h0
    rw [hget]
    simp [dailyReturn, h0]
  · intro h0
    rw [hget]
    simp [dailyReturn, h0]
  · intro h0
    rw [hget]
    simp [dailyReturn, h0]

theorem C1_daily_return_formula_witness :
    ((JsNum.num 0 : JsNum) = JsNum.num 0 →
      (calculateDailyReturns [⟨1, JsNum.num 0⟩, ⟨2, JsNum.num 5⟩])[0]? =
        some (JsNum.num 0)) ∧
    ((JsNum.num 0 : JsNum) ≠ JsNum.num 0 →
      (calculateDailyReturns [⟨1, JsNum.num 0⟩, ⟨2, JsNum.num 5⟩])[0]? =
        some ((JsNum.sub (JsNum.num 5) (JsNum.num 0)).div (JsNum.num 0))) ∧
    ((JsNum.num 0 : JsNum) = JsNum.num 0 →
      (calculateDailyReturns [⟨1, JsNum.num 0⟩, ⟨2, JsNum.num 5⟩])[0]? ≠
        some JsNum.nan) :=
  C1_daily_return_formula [⟨1, JsNum.num 0⟩, ⟨2, JsNum.num 5⟩] 1 (by decide)
    ⟨1, JsNum.num 0⟩ ⟨2, JsNum.num 5⟩ (by decide) (by decide)

/-- Claim C2: for every requested symbol whose parsed price history has
length `n ≥ 2`, its return series has length exactly `n - 1`; with fewer
than two observations the series is empty. -/
theorem C2_return_series_length (pf : String → JsNum) (pd : String → Int)
    (fileContent : Option String) (instruments : List Instrument) (sym : String)
    (hsym : sym ∈ instruments.map Instrument.symbol) :
    ∃ rs, mapGet (getHistoricalData pf pd fileContent instruments) sym = some rs ∧
      (∀ ps, mapGet (parseCsvData pf pd fileContent) sym = some ps →
        (2 ≤ ps.length → rs.length = ps.length - 1) ∧
        (ps.length < 2 → rs = [])) ∧
      (mapGet (parseCsvData pf pd fileContent) sym = none → rs = []) := by
  refine ⟨returnsFor (parseCsvData pf pd fileContent) sym, ?_, ?_, ?_⟩
  · rw [mapGet_getHistoricalData]
    simp [hsym]
  · intro ps hps
    constructor
    · intro h2
      unfold returnsFor
      rw [hps]
      have hgt : ps.length > 1 := h2
      simp [hgt, length_calculateDailyReturns]
    · intro h2
      unfold returnsFor
      rw [hps]
      have hle : ¬ ps.length > 1 := by omega
      simp [hle]
  · intro h
    unfold returnsFor
    rw [h]

theorem C2_return_series_length_witness :
    ∃ rs, mapGet (getHistoricalData pf0 pd0 (some cAB) [iA0]) "A" = some rs ∧
      (∀ ps, mapGet (parseCsvData pf0 pd0 (some cAB)) "A" = some ps →
        (2 ≤ ps.length → rs.length = ps.length - 1) ∧
        (ps.length < 2 → rs = [])) ∧
      (mapGet (parseCsvData pf0 pd0 (some cAB)) "A" = none → rs = []) :=
  C2_return_series_length pf0 pd0 (some cAB) [iA0] "A" (by decide)

/-- Claim C3: for each instrument in the input list, the mapping returned by
`getHistoricalData` contains an entry under that instrument's symbol, and
the entry is the empty list when the symbol is absent from the source or
has fewer than two observations (the call is total, so those data-absence
cases never throw). -/
theorem C3_entry_for_every_instrument (pf : String → JsNum) (pd : String → Int)
    (fileContent : Option String) (instruments : List Instrument) :
    ∀ inst ∈ instruments, ∃ rs,
      mapGet (getHistoricalData pf pd fileContent instruments) inst.symbol = some rs ∧
      (((mapGet (parseCsvData pf pd fileContent) inst.symbol).getD []).length < 2 →
        rs = []) := by
  intro inst hinst
  refine ⟨returnsFor (parseCsvData pf pd fileContent) inst.symbol, ?_, ?_⟩
  · rw [mapGet_getHistoricalData]
    have hmem : inst.symbol ∈ instruments.map Instrument.symbol :=
      List.mem_map_of_mem _ hinst
    simp [hmem]
  · intro hlen
    unfold returnsFor
    cases hm : mapGet (parseCsvData pf pd fileContent) inst.symbol with
    | none => rfl
    | some ps =>
        rw [hm] at hlen
        simp only [Option.getD_some] at hlen
        have hle : ¬ ps.length > 1 := by omega
        simp [hle]

theorem C3_entry_for_every_instrument_witness :
    ∃ rs, mapGet (getHistoricalData pf0 pd0 (some cAB) [iB0]) iB0.symbol = some rs ∧
      (((mapGet (parseCsvData pf0 pd0 (some cAB)) iB0.symbol).getD []).length < 2 →
        rs = []) :=
  C3_entry_for_every_instrument pf0 pd0 (some cAB) [iB0] iB0 (by simp)

/-- Claim C10: the key set of the mapping returned by `getHistoricalData` is
exactly the set of requested instrument symbols, and duplicate symbols in
the input collapse to a single entry (the key list has no duplicates). -/
theorem C10_key_set (pf : String → JsNum) (pd : String → Int)
    (fileContent : Option String) (instruments : List Instrument) :
    (∀ sym, (mapGet (getHistoricalData pf pd fileContent instruments) sym).isSome ↔
      sym ∈ instruments.map Instrument.symbol) ∧
    ((getHistoricalData pf pd fileContent instruments).map Prod.fst).Nodup := by
  constructor
  · intro sym
    rw [mapGet_getHistoricalData]
    by_cases h : sym ∈ instruments.map Instrument.symbol <;> simp [h]
  · exact nodup_keys_foldl_histStep _ instruments [] (by simp)

/-- Claim C5: when the data source cannot be read (`none`), the failure is
not propagated: the parse degrades to the empty map, every requested symbol
gets the empty return series, and the result is indistinguishable from a
readable source that simply has no data rows. -/
theorem C5_unreadable_source (pf : String → JsNum) (pd : String → Int)
    (instruments : List Instrument) :
    parseCsvData pf pd none = [] ∧
    (∀ sym, sym ∈ instruments.map Instrument.symbol →
      mapGet (getHistoricalData pf pd none instruments) sym = some []) ∧
    (∀ fileContent : String, (jsSplit '\n' fileContent).drop 1 = [] →
      getHistoricalData pf pd (some fileContent) instruments =
        getHistoricalData pf pd none instruments) := by
  refine ⟨rfl, ?_, ?_⟩
  · intro sym h
    rw [mapGet_getHistoricalData]
    simp [h, returnsFor, mapGet]
  · intro fileContent hc
    have hparse : parseCsvData pf pd (some fileContent) = parseCsvData pf pd none := by
      show parseCsvRows pf pd ((jsSplit '\n' fileContent).drop 1) = []
      rw [hc]
      rfl
    unfold getHistoricalData
    rw [hparse]

theorem C5_unreadable_source_witness :
    mapGet (getHistoricalData pf0 pd0 none [iA0]) "A" = some [] ∧
    getHistoricalData pf0 pd0 (some "date,symbol,price") [iA0] =
      getHistoricalData pf0 pd0 none [iA0] :=
  ⟨(C5_unreadable_source pf0 pd0 [iA0]).2.1 "A" (by decide),
   (C5_unreadable_source pf0 pd0 [iA0]).2.2 "date,symbol,price" (by decide)⟩

/-- Claim C8: when the set of included instruments is empty,
`runCalculation` sets the VaR result to `null` and returns without invoking
the engine (the invocation flag is `false` and the result does not depend
on `calculateVaR`). -/
theorem C8_empty_active_set {α : Type}
    (calculateVaR : List Instrument → List (String × List JsNum) → String → α)
    (pf : String → JsNum) (pd : String → Int) (fileContent : Option String)
    (instruments : List Instrument) (simulationMethod : String)
    (h : instruments.filter (fun inst => inst.included) = []) :
    runCalculation calculateVaR pf pd fileContent instruments simulationMethod =
      (none, false) := by
  simp [runCalculation, h]

theorem C8_empty_active_set_witness :
    runCalculation (fun _ _ _ => (0 : ℚ)) pf0 pd0 (some cAB) [iC0] "parametric" =
      (none, false) :=
  C8_empty_active_set (fun _ _ _ => (0 : ℚ)) pf0 pd0 (some cAB) [iC0]
    "parametric" (by decide)

/-- Preservation of symbol uniqueness by one mutation handler. -/
theorem nodup_symbols_applyPortfolioOp (l : List Instrument) (op : PortfolioOp)
    (h : (l.map Instrument.symbol).Nodup) :
    ((applyPortfolioOp l op).map Instrument.symbol).Nodup := by
  cases op with
  | add instrument id =>
      show ((addInstrument l instrument id).map Instrument.symbol).Nodup
      unfold addInstrument
      cases hfind : l.find? (fun inst => inst.symbol == instrument.symbol) with
      | some x => exact h
      | none =>
          have hnotin : ∀ inst ∈ l, inst.symbol ≠ instrument.symbol := by
            intro inst hmem
            have hni := List.find?_eq_none.1 hfind inst hmem
            simpa using hni
          rw [List.map_append, List.nodup_append]
          refine ⟨h, by simp, ?_⟩
          intro a ha hb
          simp only [List.map_cons, List.map_nil, List.mem_singleton] at hb
          subst hb
          obtain ⟨inst, hmem, heq⟩ := List.mem_map.1 ha
          exact hnotin inst hmem heq
  | remove id =>
      show ((removeInstrument l id).map Instrument.symbol).Nodup
      exact List.Nodup.sublist
        (List.Sublist.map _ (List.filter_sublist _)) h
  | toggle id =>
      show ((toggleInstrument l id).map Instrument.symbol).Nodup
      unfold toggleInstrument
      have hmap : ((l.map (fun inst =>
          if inst.id = id then { inst with included := !inst.included }
          else inst)).map Instrument.symbol) = l.map Instrument.symbol := by
        rw [List.map_map]
        apply List.map_congr_left
        intro inst _
        by_cases hid : inst.id = id <;> simp [hid]
      rw [hmap]
      exact h

/-- Claim C9: `addInstrument` leaves the list unchanged when an instrument
with the same symbol is already present, and every instrument list
reachable from the empty list by add/remove/toggle has pairwise-distinct
symbols. -/
theorem C9_unique_symbols :
    (∀ (instruments : List Instrument) (instrument : NewInstrument)
      (id : String) (inst : Instrument), inst ∈ instruments →
      inst.symbol = instrument.symbol →
      addInstrument instruments instrument id = instruments) ∧
    (∀ ops : List PortfolioOp,
      ((applyPortfolioOps [] ops).map Instrument.symbol).Nodup) := by
  constructor
  · intro instruments instrument id inst hmem hsym
    unfold addInstrument
    cases hfind : instruments.find? (fun i => i.symbol == instrument.symbol) with
    | some x => rfl
    | none =>
        exfalso
        have hni := List.find?_eq_none.1 hfind inst hmem
        simp [hsym] at hni
  · intro ops
    have hgen : ∀ l : List Instrument, (l.map Instrument.symbol).Nodup →
        ((applyPortfolioOps l ops).map Instrument.symbol).Nodup := by
      induction ops with
      | nil => intro l h; exact h
      | cons op rest ih =>
          intro l h
          exact ih _ (nodup_symbols_applyPortfolioOp l op h)
    exact hgen [] (by simp)

theorem C9_unique_symbols_witness :
    addInstrument [iA0] ⟨"A", 2⟩ "id9" = [iA0] ∧
    ((applyPortfolioOps []
      [PortfolioOp.add ⟨"A", 1⟩ "id1", PortfolioOp.toggle "id1",
       PortfolioOp.add ⟨"B", 1⟩ "id2"]).map Instrument.symbol).Nodup :=
  ⟨C9_unique_symbols.1 [iA0] ⟨"A", 2⟩ "id9" iA0 (by simp) rfl,
   C9_unique_symbols.2
     [PortfolioOp.add ⟨"A", 1⟩ "id1", PortfolioOp.toggle "id1",
      PortfolioOp.add ⟨"B", 1⟩ "id2"]⟩

/-- Claim C4 (amended): for every instrument list, feeding the same data
rows in reverse order yields a return-series mapping identical to feeding
them in order, provided each symbol's parsed records carry pairwise-distinct
dates.  (With duplicate dates the stable sort preserves the source row
order among equal-date records, so reversal can change the result; see the
counterexample.) -/
theorem C4_reverse_rows_same_returns (pf : String → JsNum) (pd : String → Int)
    (cFwd cRev : String) (instruments : List Instrument)
    (hrev : (jsSplit '\n' cRev).drop 1 = ((jsSplit '\n' cFwd).drop 1).reverse)
    (hnd : DatesDistinct pf pd ((jsSplit '\n' cFwd).drop 1)) :
    getHistoricalData pf pd (some cRev) instruments =
      getHistoricalData pf pd (some cFwd) instruments := by
  unfold getHistoricalData
  apply foldl_histStep_congr
  intro sym
  show mapGet (parseCsvRows pf pd ((jsSplit '\n' cRev).drop 1)) sym =
    mapGet (parseCsvRows pf pd ((jsSplit '\n' cFwd).drop 1)) sym
  rw [hrev]
  exact mapGet_parseCsvRows_reverse pf pd _ hnd sym

theorem C4_reverse_rows_same_returns_witness :
    getHistoricalData pf0 pd0 (some cDistRev) [iA0] =
      getHistoricalData pf0 pd0 (some cDistFwd) [iA0] :=
  C4_reverse_rows_same_returns pf0 pd0 cDistFwd cDistRev [iA0]
    (by decide) (by unfold DatesDistinct; decide)

/-- `returnsFor` on a one-entry map, looked up at its own key. -/
theorem returnsFor_singleton (sym : String) (ps : List PriceRecord) :
    returnsFor [(sym, ps)] sym =
      if ps.length > 1 then calculateDailyReturns ps else [] := by
  unfold returnsFor
  simp [mapGet]

/-- Claim C4 is false as stated: with two rows sharing a date for symbol
`A` (`d1,A,100` then `d1,A,50`, then `d2,A,100`), the stable date sort
keeps equal-date records in source row order, so feeding the rows in
reverse chronological order changes the sorted record order and hence the
return series (`[1, 0]` versus `[-1/2, 1]`). -/
theorem C4_counterexample :
    getHistoricalData pf0 pd0 (some cDupRev) [iA0] ≠
      getHistoricalData pf0 pd0 (some cDupFwd) [iA0] := by
  have hmemA : "A" ∈ [iA0].map Instrument.symbol := by decide
  have hpFwd : parseCsvData pf0 pd0 (some cDupFwd) =
      [("A", [⟨1, JsNum.num 100⟩, ⟨1, JsNum.num 50⟩, ⟨2, JsNum.num 100⟩])] := by
    decide
  have hpRev : parseCsvData pf0 pd0 (some cDupRev) =
      [("A", [⟨1, JsNum.num 50⟩, ⟨1, JsNum.num 100⟩, ⟨2, JsNum.num 100⟩])] := by
    decide
  have hcFwd : calculateDailyReturns
      [⟨1, JsNum.num 100⟩, ⟨1, JsNum.num 50⟩, ⟨2, JsNum.num 100⟩] =
      [JsNum.num (-1/2), JsNum.num 1] := by
    norm_num [calculateDailyReturns, dailyReturn, JsNum.sub, JsNum.div]
  have hcRev : calculateDailyReturns
      [⟨1, JsNum.num 50⟩, ⟨1, JsNum.num 100⟩, ⟨2, JsNum.num 100⟩] =
      [JsNum.num 1, JsNum.num 0] := by
    norm_num [calculateDailyReturns, dailyReturn, JsNum.sub, JsNum.div]
  have hrfFwd : returnsFor
      [("A", [⟨1, JsNum.num 100⟩, ⟨1, JsNum.num 50⟩, ⟨2, JsNum.num 100⟩])] "A" =
      [JsNum.num (-1/2), JsNum.num 1] := by
    rw [returnsFor_singleton, if_pos (by decide)]
    exact hcFwd
  have hrfRev : returnsFor
      [("A", [⟨1, JsNum.num 50⟩, ⟨1, JsNum.num 100⟩, ⟨2, JsNum.num 100⟩])] "A" =
      [JsNum.num 1, JsNum.num 0] := by
    rw [returnsFor_singleton, if_pos (by decide)]
    exact hcRev
  intro hcontra
  have hA := congrArg (fun m => mapGet m "A") hcontra
  simp only at hA
  rw [mapGet_getHistoricalData, mapGet_getHistoricalData, if_pos hmemA,
    if_pos hmemA, hpFwd, hpRev, hrfFwd, hrfRev] at hA
  simp only [Option.some.injEq, List.cons.injEq, JsNum.num.injEq] at hA
  exact absurd hA.1 (by norm_num)

/-- Claim C6: a data row whose date, symbol, or price field is missing
(empty) is skipped silently: removing it from the source leaves the parsed
data unchanged, so it contributes no price record to any symbol, and
parsing is total so it causes no failure. -/
theorem C6_malformed_rows_skipped (pf : String → JsNum) (pd : String → Int)
    (c c' row : String) (rows1 rows2 : List String)
    (hrow : (jsSplit ',' row).getD 0 "" = "" ∨ (jsSplit ',' row).getD 1 "" = "" ∨
      (jsSplit ',' row).getD 2 "" = "")
    (hc : (jsSplit '\n' c).drop 1 = rows1 ++ row :: rows2)
    (hc' : (jsSplit '\n' c').drop 1 = rows1 ++ rows2) :
    parseCsvData pf pd (some c) = parseCsvData pf pd (some c') := by
  have hskip : rowRec pf pd row = none := by
    unfold rowRec
    by_cases h1 : row = ""
    · simp [h1]
    · simp only [h1, if_false]
      rw [if_pos hrow]
  have hfold : ∀ acc : List (String × List PriceRecord),
      (rows1 ++ row :: rows2).foldl (groupRow pf pd) acc =
      (rows1 ++ rows2).foldl (groupRow pf pd) acc := by
    intro acc
    rw [List.foldl_append, List.foldl_append, List.foldl_cons]
    congr 1
    simp [groupRow, hskip]
  show parseCsvRows pf pd ((jsSplit '\n' c).drop 1) =
    parseCsvRows pf pd ((jsSplit '\n' c').drop 1)
  rw [hc, hc']
  unfold parseCsvRows
  rw [hfold]

theorem C6_malformed_rows_skipped_witness :
    parseCsvData pf0 pd0 (some "date,symbol,price\nd1,A,100\nd2,,50\nd3,A,105") =
      parseCsvData pf0 pd0 (some "date,symbol,price\nd1,A,100\nd3,A,105") :=
  C6_malformed_rows_skipped pf0 pd0
    "date,symbol,price\nd1,A,100\nd2,,50\nd3,A,105"
    "date,symbol,price\nd1,A,100\nd3,A,105"
    "d2,,50" ["d1,A,100"] ["d3,A,105"]
    (by decide) (by decide) (by decide)

/-- Claim C7: the provider does not validate numeric well-formedness beyond
the best-effort parse: for a source with a non-empty non-numeric price
field (one `parseFloat` maps to NaN) and two observations for the symbol,
the parsed record carries the NaN sentinel and the return series returned
by `getHistoricalData` contains a non-numeric value — the row is not
filtered out. -/
theorem C7_nonnumeric_price (pf : String → JsNum) (pd : String → Int)
    (h1 : pf "abc" = JsNum.nan) (h2 : pf "100" = JsNum.num 100)
    (h3 : pd "d1" ≤ pd "d2") :
    ∃ (fileContent : String) (ps : List PriceRecord),
      mapGet (parseCsvData pf pd (some fileContent)) "A" = some ps ∧
      2 ≤ ps.length ∧ (∃ r ∈ ps, r.price = JsNum.nan) ∧
      mapGet (getHistoricalData pf pd (some fileContent) [iA0]) "A" =
        some [JsNum.nan] := by
  have hfields1 : jsSplit ',' "d1,A,100" = ["d1", "A", "100"] := by decide
  have hfields2 : jsSplit ',' "d2,A,abc" = ["d2", "A", "abc"] := by decide
  have hrow1 : rowRec pf pd "d1,A,100" = some ("A", ⟨pd "d1", pf "100"⟩) := by
    unfold rowRec
    rw [if_neg (by decide : ¬("d1,A,100" : String) = "")]
    simp [hfields1]
  have hrow2 : rowRec pf pd "d2,A,abc" = some ("A", ⟨pd "d2", pf "abc"⟩) := by
    unfold rowRec
    rw [if_neg (by decide : ¬("d2,A,abc" : String) = "")]
    simp [hfields2]
  have hgroup : ["d1,A,100", "d2,A,abc"].foldl (groupRow pf pd) [] =
      [("A", [⟨pd "d1", pf "100"⟩, ⟨pd "d2", pf "abc"⟩])] := by
    simp only [List.foldl_cons, List.foldl_nil]
    rw [show groupRow pf pd [] "d1,A,100" = [("A", [⟨pd "d1", pf "100"⟩])] from by
      unfold groupRow
      rw [hrow1]
      rfl]
    unfold groupRow
    rw [hrow2]
    rfl
  have hsplit : (jsSplit '\n' "date,symbol,price\nd1,A,100\nd2,A,abc").drop 1 =
      ["d1,A,100", "d2,A,abc"] := by decide
  have hsort : List.insertionSort byDateLe
      [⟨pd "d1", pf "100"⟩, ⟨pd "d2", pf "abc"⟩] =
      [⟨pd "d1", pf "100"⟩, ⟨pd "d2", pf "abc"⟩] := by
    have h3' : byDateLe ⟨pd "d1", pf "100"⟩ ⟨pd "d2", pf "abc"⟩ := h3
    show (if byDateLe ⟨pd "d1", pf "100"⟩ ⟨pd "d2", pf "abc"⟩ then
        [⟨pd "d1", pf "100"⟩, ⟨pd "d2", pf "abc"⟩]
      else ⟨pd "d2", pf "abc"⟩ ::
        List.orderedInsert byDateLe ⟨pd "d1", pf "100"⟩ []) =
      [⟨pd "d1", pf "100"⟩, ⟨pd "d2", pf "abc"⟩]
    rw [if_pos h3']
  have hparse : parseCsvData pf pd (some "date,symbol,price\nd1,A,100\nd2,A,abc") =
      [("A", [⟨pd "d1", pf "100"⟩, ⟨pd "d2", pf "abc"⟩])] := by
    show parseCsvRows pf pd
      ((jsSplit '\n' "date,symbol,price\nd1,A,100\nd2,A,abc").drop 1) = _
    rw [hsplit]
    unfold parseCsvRows
    rw [hgroup]
    simp only [List.map_cons, List.map_nil]
    rw [hsort]
  have hdr : dailyReturn (pf "100") (pf "abc") = JsNum.nan := by
    rw [h2, h1]
    unfold dailyReturn
    rw [if_neg (by norm_num : ¬(JsNum.num 100 = JsNum.num 0))]
    rfl
  have hmem : "A" ∈ ([iA0] : List Instrument).map Instrument.symbol := by decide
  have hlen : ([(⟨pd "d1", pf "100"⟩ : PriceRecord),
      ⟨pd "d2", pf "abc"⟩]).length > 1 := by simp
  refine ⟨"date,symbol,price\nd1,A,100\nd2,A,abc",
    [⟨pd "d1", pf "100"⟩, ⟨pd "d2", pf "abc"⟩], ?_, ?_, ?_, ?_⟩
  · rw [hparse]
    rfl
  · rfl
  · exact ⟨⟨pd "d2", pf "abc"⟩, by simp, h1⟩
  · rw [mapGet_getHistoricalData, if_pos hmem, hparse, returnsFor_singleton,
      if_pos hlen]
    show some [dailyReturn (pf "100") (pf "abc")] = some [JsNum.nan]
    rw [hdr]

theorem C7_nonnumeric_price_witness :
    ∃ (fileContent : String) (ps : List PriceRecord),
      mapGet (parseCsvData pf0 pd0 (some fileContent)) "A" = some ps ∧
      2 ≤ ps.length ∧ (∃ r ∈ ps, r.price = JsNum.nan) ∧
      mapGet (getHistoricalData pf0 pd0 (some fileContent) [iA0]) "A" =
        some [JsNum.nan] :=
  C7_nonnumeric_price pf0 pd0 (by decide) (by decide) (by decide)
